import Mathlib

/-!
Verification development for the channels-cpp library.

The C++ sources are shallowly embedded as Lean functions:
- `channels.spsc` models `src/include/spsc.hpp` (lock-free SPSC ring buffer);
- `channels.oneshot` models `src/include/oneshot.hpp` (both the tri-state
  and the older boolean-flag one-shot inner channels);
- `channels.arc` models the `arc_ptr` reference-counted cell.

Machine integers (`size_t`) are modelled as `Nat`: the cursors are always
reduced modulo the power-of-two capacity by `&&& mask` exactly as in the
source, so no 2^64 overflow behaviour is ever observable.  Raw uninitialized
slots are modelled as `Option` values (`none` = no object constructed there).
Sequential interleavings of the producer and consumer are modelled by a run
function applying whole operations one at a time; in such an interleaving
every atomic load returns the current value of the corresponding field.
-/

namespace channels

/-- Status enumeration used by the one-shot channel (`ResponseStatus` in
`channels.hpp`, together with the sender/receiver-closed statuses returned
by `oneshot.hpp`). -/
inductive ResponseStatus where
  | SUCCESS
  | CHANNEL_FULL
  | CHANNEL_EMPTY
  | SKIP_DUE_TO_OVERWRITE
  | SENDER_CLOSED
  | RECEIVER_CLOSED
deriving DecidableEq, Repr

namespace spsc

/-- Loop body of `channel::next_power_of_2` (spsc.hpp lines 107-110):
`power` starts at 1 and doubles while `power <= n`.  The fuel argument only
bounds the `while` loop so the recursion is structural; `npow2_go_fuel`
below shows that any fuel of at least `n + 1` yields the loop's exit
value, so the model does not depend on the bound. -/
def npow2_go (n : Nat) : Nat → Nat → Nat
  | power, 0 => power
  | power, fuel + 1 => if power ≤ n then npow2_go n (power * 2) fuel else power

/-- Model of `channel::next_power_of_2` (spsc.hpp lines 103-112). -/
def next_power_of_2 (n : Nat) : Nat :=
  if n ≤ 1 then 1 else npow2_go n 1 (n + 1)

/-- State of `channels::spsc::channel<T>`.  `buffer` holds `capacity` raw
slots; a slot is `some v` exactly when a `T` object is currently
constructed in it.  The two cursors are the atomics; the two caches are the
plain shadow fields. -/
structure Chan (α : Type) where
  capacity : Nat
  capacityMask : Nat
  buffer : List (Option α)
  sendCursor : Nat
  rcvCursorCache : Nat
  rcvCursor : Nat
  sendCursorCache : Nat
deriving DecidableEq

/-- Model of the `channel` constructor (spsc.hpp lines 13-21): capacity is
rounded by `next_power_of_2`, the mask is `capacity - 1`, the buffer is raw
(no element constructed), and all cursors and caches start at 0. -/
def mkChannel (α : Type) (capacity : Nat) : Chan α :=
  { capacity := next_power_of_2 capacity
    capacityMask := next_power_of_2 capacity - 1
    buffer := List.replicate (next_power_of_2 capacity) none
    sendCursor := 0
    rcvCursorCache := 0
    rcvCursor := 0
    sendCursorCache := 0 }

/-- Model of `channel::try_send` (spsc.hpp lines 43-57; the move overload at
lines 63-77 is field-for-field identical).  Returns whether the send
succeeded together with the new state.  In a sequential interleaving the
acquire reload of `rcvCursor_` returns the current `rcvCursor` field. -/
def try_send {α : Type} (c : Chan α) (value : α) : Bool × Chan α :=
  let sendCursor := c.sendCursor
  let next_sendCursor := (sendCursor + 1) &&& c.capacityMask
  if next_sendCursor = c.rcvCursorCache then
    let rcvCursorCache := c.rcvCursor
    if next_sendCursor = rcvCursorCache then
      (false, { c with rcvCursorCache := rcvCursorCache })
    else
      (true, { c with
        rcvCursorCache := rcvCursorCache
        buffer := c.buffer.set sendCursor (some value)
        sendCursor := next_sendCursor })
  else
    (true, { c with
      buffer := c.buffer.set sendCursor (some value)
      sendCursor := next_sendCursor })

/-- Model of `channel::try_receive` (spsc.hpp lines 83-96).  Returns
(succeeded, value moved out of the slot, new state); the slot's destructor
run is modelled by resetting the slot to `none`.  On failure the out
parameter is untouched, which the model renders as the `none` in the middle
component. -/
def try_receive {α : Type} (c : Chan α) : Bool × Option α × Chan α :=
  let rcvCursor := c.rcvCursor
  if rcvCursor = c.sendCursorCache then
    let sendCursorCache := c.sendCursor
    if rcvCursor = sendCursorCache then
      (false, none, { c with sendCursorCache := sendCursorCache })
    else
      (true, c.buffer.getD rcvCursor none,
       { c with
         sendCursorCache := sendCursorCache
         buffer := c.buffer.set rcvCursor none
         rcvCursor := (rcvCursor + 1) &&& c.capacityMask })
  else
    (true, c.buffer.getD rcvCursor none,
     { c with
       buffer := c.buffer.set rcvCursor none
       rcvCursor := (rcvCursor + 1) &&& c.capacityMask })

/-- Loop of `channel::~channel` (spsc.hpp lines 29-33): starting from the
receive cursor, walk `next_index` until the send cursor is reached and
collect every index whose slot gets destructed.  The fuel argument bounds
the walk; `capacity` steps always suffice on reachable states. -/
def dtor_go (capacityMask sendCursor : Nat) : Nat → Nat → List Nat
  | _, 0 => []
  | i, fuel + 1 =>
    if i = sendCursor then []
    else i :: dtor_go capacityMask sendCursor ((i + 1) &&& capacityMask) fuel

/-- Indices whose slots the destructor `channel::~channel` (spsc.hpp lines
24-37) destructs, in iteration order. -/
def destructed {α : Type} (c : Chan α) : List Nat :=
  dtor_go c.capacityMask c.sendCursor c.rcvCursor c.capacity

/-- One operation of a sequential producer/consumer interleaving. -/
inductive Op (α : Type) where
  | send (v : α)
  | recv
deriving DecidableEq

/-- Run a list of operations from a given state, accumulating the values of
successful sends and the values delivered by successful receives. -/
def runFrom {α : Type} (c : Chan α) (sent recvd : List α) :
    List (Op α) → Chan α × List α × List α
  | [] => (c, sent, recvd)
  | Op.send v :: ops =>
    let r := try_send c v
    runFrom r.2 (if r.1 then sent ++ [v] else sent) recvd ops
  | Op.recv :: ops =>
    let r := try_receive c
    runFrom r.2.2 sent (if r.1 then recvd ++ r.2.1.toList else recvd) ops

/-- Run a sequential interleaving on a freshly constructed channel of the
given requested capacity. -/
def run (α : Type) (capacity : Nat) (ops : List (Op α)) :
    Chan α × List α × List α :=
  runFrom (mkChannel α capacity) [] [] ops

/-- Number of consecutive `try_send` calls that succeed from a given state
(bounded by a fuel argument). -/
def sendStreak {α : Type} (c : Chan α) (v : α) : Nat → Nat
  | 0 => 0
  | fuel + 1 =>
    let r := try_send c v
    if r.1 then sendStreak r.2 v fuel + 1 else 0

/-- Maximum number of in-flight elements: how many consecutive `try_send`
calls succeed on a freshly constructed channel of requested capacity
`capacity` before the first failure. -/
def maxInFlight (capacity : Nat) : Nat :=
  sendStreak (mkChannel Nat capacity) 0 (next_power_of_2 capacity)

/-- Smallest power of two greater than or equal to `n` — this is the
`nextPow2` function as worded by the capacity claim (and by spec §3), to be
compared against the source's `next_power_of_2`.  The characterization
(power of two, ≥ n, minimal such) is proved in `claimed_next_pow2_spec`. -/
def claimed_go (n : Nat) : Nat → Nat → Nat
  | power, 0 => power
  | power, fuel + 1 => if power < n then claimed_go n (power * 2) fuel else power

/-- Smallest power of two ≥ `n` (the claim's reading of `nextPow2`). -/
def claimed_next_pow2 (n : Nat) : Nat := claimed_go n 1 n

/-- Invariant tying a channel state to the history of successful sends and
receives of the sequential interleaving that produced it.  `sent.length`
and `recvd.length` play the role of unbounded ghost cursors; `RC` and `SC`
are ghost values of the receive/send counters at the moments the
corresponding caches were last refreshed. -/
structure Inv {α : Type} (c : Chan α) (sent recvd : List α) : Prop where
  pow : ∃ k, c.capacity = 2 ^ k
  mask_eq : c.capacityMask = c.capacity - 1
  buf_len : c.buffer.length = c.capacity
  send_eq : c.sendCursor = sent.length % c.capacity
  recv_eq : c.rcvCursor = recvd.length % c.capacity
  recv_le : recvd.length ≤ sent.length
  live_le : sent.length ≤ recvd.length + (c.capacity - 1)
  rc_ghost : ∃ RC, c.rcvCursorCache = RC % c.capacity ∧ RC ≤ recvd.length ∧
    sent.length ≤ RC + (c.capacity - 1)
  sc_ghost : ∃ SC, c.sendCursorCache = SC % c.capacity ∧ recvd.length ≤ SC ∧
    SC ≤ sent.length
  recvd_eq : recvd = sent.take recvd.length
  buf_live : ∀ i, recvd.length ≤ i → i < sent.length →
    c.buffer.getD (i % c.capacity) none = sent[i]?
  buf_dead : ∀ j, j < c.capacity →
    (∀ i, recvd.length ≤ i → i < sent.length → j ≠ i % c.capacity) →
    c.buffer.getD j none = none

end spsc

end channels

namespace channels.spsc

lemma mod_eq_mod_iff {cap x y : Nat} (hcap : 0 < cap) (hxy : x ≤ y)
    (hw : y ≤ x + cap) : y % cap = x % cap ↔ y = x ∨ y = x + cap := by
  constructor
  · intro h
    have hd : cap ∣ y - x := (Nat.modEq_iff_dvd' hxy).mp h.symm
    obtain ⟨t, ht⟩ := hd
    rcases t with _ | _ | t
    · left; omega
    · right; omega
    · have h2 : cap * 2 ≤ cap * (t + 1 + 1) := Nat.mul_le_mul_left cap (by omega)
      omega
  · rintro (rfl | rfl)
    · rfl
    · exact Nat.add_mod_right x cap

lemma getD_set_self {α : Type} (l : List (Option α)) (i : Nat)
    (hi : i < l.length) (a : Option α) : (l.set i a).getD i none = a := by
  simp [List.getD, List.getElem?_set_self, hi]

lemma getD_set_ne {α : Type} (l : List (Option α)) (i j : Nat) (hij : i ≠ j)
    (a : Option α) : (l.set i a).getD j none = l.getD j none := by
  simp [List.getD, List.getElem?_set_ne, hij]

lemma getD_replicate {α : Type} (n j : Nat) :
    (List.replicate n (none : Option α)).getD j none = none := by
  simp only [List.getD, List.get?_eq_getElem?, List.getElem?_replicate]
  split <;> rfl

namespace Inv

variable {α : Type} {c : Chan α} {sent recvd : List α}

lemma cap_pos (h : Inv c sent recvd) : 0 < c.capacity := by
  obtain ⟨k, hk⟩ := h.pow
  exact hk ▸ Nat.two_pow_pos k

lemma mask_mod (h : Inv c sent recvd) (x : Nat) :
    x &&& c.capacityMask = x % c.capacity := by
  obtain ⟨k, hk⟩ := h.pow
  rw [h.mask_eq, hk, Nat.and_pow_two_sub_one_eq_mod]

lemma next_eq (h : Inv c sent recvd) :
    (c.sendCursor + 1) &&& c.capacityMask = (sent.length + 1) % c.capacity := by
  rw [h.mask_mod, h.send_eq, Nat.mod_add_mod]

end Inv

lemma try_send_fail_iff {α : Type} {c : Chan α} {sent recvd : List α}
    (h : Inv c sent recvd) (v : α) :
    (try_send c v).1 = false ↔
      sent.length = recvd.length + (c.capacity - 1) := by
  have hcap := h.cap_pos
  have hnext := h.next_eq
  have hrle := h.recv_le
  have hlive := h.live_le
  obtain ⟨RC, hRC, hRC1, hRC2⟩ := h.rc_ghost
  by_cases h1 : (c.sendCursor + 1) &&& c.capacityMask = c.rcvCursorCache
  · by_cases h2 : (c.sendCursor + 1) &&& c.capacityMask = c.rcvCursor
    · have h12 : c.rcvCursorCache = c.rcvCursor := h1.symm.trans h2
      have hres : (try_send c v).1 = false := by simp [try_send, h1, h12]
      rw [hres]
      simp only [true_iff]
      rw [hnext, h.recv_eq] at h2
      have hcases := (mod_eq_mod_iff hcap
        (by omega : recvd.length ≤ sent.length + 1) (by omega)).mp h2
      omega
    · have h12 : ¬c.rcvCursorCache = c.rcvCursor := fun hh => h2 (h1.trans hh)
      have hres : (try_send c v).1 = true := by simp [try_send, h1, h12]
      rw [hres]
      simp only [Bool.true_eq_false, false_iff]
      intro hfull
      apply h2
      rw [hnext, h.recv_eq]
      have heq : sent.length + 1 = recvd.length + c.capacity := by omega
      rw [heq]
      exact Nat.add_mod_right _ _
  · have hres : (try_send c v).1 = true := by simp [try_send, h1]
    rw [hres]
    simp only [Bool.true_eq_false, false_iff]
    intro hfull
    apply h1
    rw [hnext, hRC]
    have heq : sent.length + 1 = RC + c.capacity := by omega
    rw [heq]
    exact Nat.add_mod_right _ _

lemma try_receive_fail_iff {α : Type} {c : Chan α} {sent recvd : List α}
    (h : Inv c sent recvd) :
    (try_receive c).1 = false ↔ sent.length = recvd.length := by
  have hcap := h.cap_pos
  have hrle := h.recv_le
  have hlive := h.live_le
  obtain ⟨SC, hSC, hSC1, hSC2⟩ := h.sc_ghost
  by_cases h1 : c.rcvCursor = c.sendCursorCache
  · by_cases h2 : c.rcvCursor = c.sendCursor
    · have h12 : c.sendCursorCache = c.sendCursor := h1.symm.trans h2
      have hres : (try_receive c).1 = false := by simp [try_receive, h1, h12]
      rw [hres]
      simp only [true_iff]
      rw [h.recv_eq, h.send_eq] at h2
      have hcases := (mod_eq_mod_iff hcap h.recv_le (by omega)).mp h2.symm
      omega
    · have h12 : ¬c.sendCursorCache = c.sendCursor := fun hh => h2 (h1.trans hh)
      have hres : (try_receive c).1 = true := by simp [try_receive, h1, h12]
      rw [hres]
      simp only [Bool.true_eq_false, false_iff]
      intro hempty
      exact h2 (by rw [h.recv_eq, h.send_eq, hempty])
  · have hres : (try_receive c).1 = true := by simp [try_receive, h1]
    rw [hres]
    simp only [Bool.true_eq_false, false_iff]
    intro hempty
    apply h1
    rw [h.recv_eq, hSC]
    have heq : SC = recvd.length := by omega
    rw [heq]

lemma send_buffer_facts {α : Type} {c : Chan α} {sent recvd : List α}
    (h : Inv c sent recvd) (v : α)
    (hS1 : sent.length + 1 ≤ recvd.length + (c.capacity - 1)) :
    (∀ i, recvd.length ≤ i → i < (sent ++ [v]).length →
      (c.buffer.set c.sendCursor (some v)).getD (i % c.capacity) none =
        (sent ++ [v])[i]?) ∧
    (∀ j, j < c.capacity →
      (∀ i, recvd.length ≤ i → i < (sent ++ [v]).length → j ≠ i % c.capacity) →
      (c.buffer.set c.sendCursor (some v)).getD j none = none) := by
  have hcap := h.cap_pos
  have hrle := h.recv_le
  have hlen : (sent ++ [v]).length = sent.length + 1 := by simp
  constructor
  · intro i hiR hiS
    rw [hlen] at hiS
    by_cases hi : i = sent.length
    · subst hi
      rw [h.send_eq] at *
      rw [getD_set_self _ _ (by rw [h.buf_len]; exact Nat.mod_lt _ hcap)]
      exact (List.getElem?_concat_length sent v).symm
    · have hilt : i < sent.length := by omega
      have hne : sent.length % c.capacity ≠ i % c.capacity := by
        intro heq
        have := (mod_eq_mod_iff hcap (le_of_lt hilt) (by omega)).mp heq
        omega
      rw [h.send_eq, getD_set_ne _ _ _ hne, h.buf_live i hiR hilt]
      exact (List.getElem?_append_left hilt).symm
  · intro j hj hnot
    have hjS : j ≠ sent.length % c.capacity := by
      apply hnot sent.length hrle
      rw [hlen]
      omega
    rw [h.send_eq, getD_set_ne _ _ _ (Ne.symm hjS)]
    apply h.buf_dead j hj
    intro i hiR hiS
    apply hnot i hiR
    rw [hlen]
    omega

lemma recv_buffer_facts {α : Type} {c : Chan α} {sent recvd : List α}
    (h : Inv c sent recvd) (_hRS : recvd.length < sent.length) :
    (∀ i, recvd.length + 1 ≤ i → i < sent.length →
      (c.buffer.set c.rcvCursor none).getD (i % c.capacity) none = sent[i]?) ∧
    (∀ j, j < c.capacity →
      (∀ i, recvd.length + 1 ≤ i → i < sent.length → j ≠ i % c.capacity) →
      (c.buffer.set c.rcvCursor none).getD j none = none) := by
  have hcap := h.cap_pos
  have hlive := h.live_le
  constructor
  · intro i hiR hiS
    have hne : i % c.capacity ≠ recvd.length % c.capacity := by
      intro heq
      have := (mod_eq_mod_iff hcap (by omega : recvd.length ≤ i) (by omega)).mp heq
      omega
    rw [h.recv_eq, getD_set_ne _ _ _ (Ne.symm hne)]
    exact h.buf_live i (by omega) hiS
  · intro j hj hnot
    by_cases hjR : j = recvd.length % c.capacity
    · subst hjR
      rw [h.recv_eq]
      exact getD_set_self _ _ (by rw [h.buf_len]; exact Nat.mod_lt _ hcap) _
    · rw [h.recv_eq, getD_set_ne _ _ _ (Ne.symm hjR)]
      apply h.buf_dead j hj
      intro i hiR hiS
      rcases Nat.eq_or_lt_of_le hiR with hi | hi
      · exact hi ▸ hjR
      · exact hnot i hi hiS

lemma try_send_inv {α : Type} {c : Chan α} {sent recvd : List α}
    (h : Inv c sent recvd) (v : α) :
    Inv (try_send c v).2 (if (try_send c v).1 = true then sent ++ [v] else sent)
      recvd := by
  have hcap := h.cap_pos
  have hrle := h.recv_le
  have hlive := h.live_le
  have hnext := h.next_eq
  obtain ⟨RC, hRC, hRC1, hRC2⟩ := h.rc_ghost
  obtain ⟨SC, hSC, hSC1, hSC2⟩ := h.sc_ghost
  by_cases h1 : (c.sendCursor + 1) &&& c.capacityMask = c.rcvCursorCache
  · by_cases h2 : (c.sendCursor + 1) &&& c.capacityMask = c.rcvCursor
    · have h12 : c.rcvCursorCache = c.rcvCursor := h1.symm.trans h2
      have hst : try_send c v = (false, { c with rcvCursorCache := c.rcvCursor }) := by
        simp [try_send, h1, h12]
      rw [hst, if_neg Bool.false_ne_true]
      exact { pow := h.pow, mask_eq := h.mask_eq, buf_len := h.buf_len,
              send_eq := h.send_eq, recv_eq := h.recv_eq, recv_le := h.recv_le,
              live_le := h.live_le,
              rc_ghost := ⟨recvd.length, h.recv_eq, le_refl _, h.live_le⟩,
              sc_ghost := ⟨SC, hSC, hSC1, hSC2⟩,
              recvd_eq := h.recvd_eq, buf_live := h.buf_live,
              buf_dead := h.buf_dead }
    · have h12 : ¬c.rcvCursorCache = c.rcvCursor := fun hh => h2 (h1.trans hh)
      have hS1 : sent.length + 1 ≤ recvd.length + (c.capacity - 1) := by
        have hne : sent.length + 1 ≠ recvd.length + c.capacity := by
          intro heq
          apply h2
          rw [hnext, h.recv_eq, heq]
          exact Nat.add_mod_right _ _
        omega
      have hbuf := send_buffer_facts h v hS1
      have hst : try_send c v = (true, { c with
          rcvCursorCache := c.rcvCursor
          buffer := c.buffer.set c.sendCursor (some v)
          sendCursor := (c.sendCursor + 1) &&& c.capacityMask }) := by
        simp [try_send, h1, h12]
      rw [hst, if_pos rfl]
      exact { pow := h.pow, mask_eq := h.mask_eq,
              buf_len := by simpa using h.buf_len,
              send_eq := by rw [hnext]; simp,
              recv_eq := h.recv_eq,
              recv_le := by simp; omega,
              live_le := by simp; omega,
              rc_ghost := ⟨recvd.length, h.recv_eq, le_refl _, by simp; omega⟩,
              sc_ghost := ⟨SC, hSC, hSC1, by simp; omega⟩,
              recvd_eq := by
                rw [List.take_append_eq_append_take,
                    Nat.sub_eq_zero_of_le h.recv_le]
                simpa using h.recvd_eq,
              buf_live := hbuf.1, buf_dead := hbuf.2 }
  · have hS1RC : sent.length + 1 ≤ RC + (c.capacity - 1) := by
      have hne : sent.length + 1 ≠ RC + c.capacity := by
        intro heq
        apply h1
        rw [hnext, hRC, heq]
        exact Nat.add_mod_right _ _
      omega
    have hS1 : sent.length + 1 ≤ recvd.length + (c.capacity - 1) := by omega
    have hbuf := send_buffer_facts h v hS1
    have hst : try_send c v = (true, { c with
        buffer := c.buffer.set c.sendCursor (some v)
        sendCursor := (c.sendCursor + 1) &&& c.capacityMask }) := by
      simp [try_send, h1]
    rw [hst, if_pos rfl]
    exact { pow := h.pow, mask_eq := h.mask_eq,
            buf_len := by simpa using h.buf_len,
            send_eq := by rw [hnext]; simp,
            recv_eq := h.recv_eq,
            recv_le := by simp; omega,
            live_le := by simp; omega,
            rc_ghost := ⟨RC, hRC, hRC1, by simp; omega⟩,
            sc_ghost := ⟨SC, hSC, hSC1, by simp; omega⟩,
            recvd_eq := by
              rw [List.take_append_eq_append_take,
                  Nat.sub_eq_zero_of_le h.recv_le]
              simpa using h.recvd_eq,
            buf_live := hbuf.1, buf_dead := hbuf.2 }

lemma try_receive_lt {α : Type} {c : Chan α} {sent recvd : List α}
    (h : Inv c sent recvd) (hs : (try_receive c).1 = true) :
    recvd.length < sent.length := by
  have hiff := try_receive_fail_iff h
  have hrle := h.recv_le
  rcases Nat.lt_or_ge recvd.length sent.length with hlt | hge
  · exact hlt
  · have : sent.length = recvd.length := by omega
    rw [hiff.mpr this] at hs
    exact absurd hs (by simp)

lemma try_receive_succ_val {α : Type} {c : Chan α} {sent recvd : List α}
    (h : Inv c sent recvd) (hs : (try_receive c).1 = true) :
    (try_receive c).2.1 = sent[recvd.length]? := by
  have hRS := try_receive_lt h hs
  by_cases h1 : c.rcvCursor = c.sendCursorCache
  · by_cases h2 : c.rcvCursor = c.sendCursor
    · have h12 : c.sendCursorCache = c.sendCursor := h1.symm.trans h2
      have : (try_receive c).1 = false := by simp [try_receive, h1, h12]
      rw [this] at hs
      exact absurd hs (by simp)
    · have h12 : ¬c.sendCursorCache = c.sendCursor := fun hh => h2 (h1.trans hh)
      have hst : (try_receive c).2.1 = c.buffer.getD c.rcvCursor none := by
        simp [try_receive, h1, h12]
      rw [hst, h.recv_eq]
      exact h.buf_live recvd.length (le_refl _) hRS
  · have hst : (try_receive c).2.1 = c.buffer.getD c.rcvCursor none := by
      simp [try_receive, h1]
    rw [hst, h.recv_eq]
    exact h.buf_live recvd.length (le_refl _) hRS

lemma try_receive_inv {α : Type} {c : Chan α} {sent recvd : List α}
    (h : Inv c sent recvd) :
    Inv (try_receive c).2.2 sent
      (if (try_receive c).1 = true then recvd ++ (try_receive c).2.1.toList
       else recvd) := by
  have hcap := h.cap_pos
  have hrle := h.recv_le
  have hlive := h.live_le
  obtain ⟨RC, hRC, hRC1, hRC2⟩ := h.rc_ghost
  obtain ⟨SC, hSC, hSC1, hSC2⟩ := h.sc_ghost
  have hrnext : (c.rcvCursor + 1) &&& c.capacityMask =
      (recvd.length + 1) % c.capacity := by
    rw [h.mask_mod, h.recv_eq, Nat.mod_add_mod]
  by_cases h1 : c.rcvCursor = c.sendCursorCache
  · by_cases h2 : c.rcvCursor = c.sendCursor
    · have h12 : c.sendCursorCache = c.sendCursor := h1.symm.trans h2
      have hst : try_receive c =
          (false, none, { c with sendCursorCache := c.sendCursor }) := by
        simp [try_receive, h1, h12]
      rw [hst, if_neg Bool.false_ne_true]
      exact { pow := h.pow, mask_eq := h.mask_eq, buf_len := h.buf_len,
              send_eq := h.send_eq, recv_eq := h.recv_eq, recv_le := h.recv_le,
              live_le := h.live_le,
              rc_ghost := ⟨RC, hRC, hRC1, hRC2⟩,
              sc_ghost := ⟨sent.length, h.send_eq, hrle, le_refl _⟩,
              recvd_eq := h.recvd_eq, buf_live := h.buf_live,
              buf_dead := h.buf_dead }
    · have h12 : ¬c.sendCursorCache = c.sendCursor := fun hh => h2 (h1.trans hh)
      have hRS : recvd.length < sent.length := by
        rcases Nat.eq_or_lt_of_le hrle with he | hlt
        · exact absurd (by rw [h.recv_eq, h.send_eq, he]) h2
        · exact hlt
      have hbuf := recv_buffer_facts h hRS
      have hdeliv : c.buffer.getD c.rcvCursor none = sent[recvd.length]? := by
        rw [h.recv_eq]
        exact h.buf_live recvd.length (le_refl _) hRS
      have hsome : sent[recvd.length]? = some (sent.get ⟨recvd.length, hRS⟩) := by
        simp [List.getElem?_eq_getElem hRS]
      have hst : try_receive c = (true, c.buffer.getD c.rcvCursor none,
          { c with
            sendCursorCache := c.sendCursor
            buffer := c.buffer.set c.rcvCursor none
            rcvCursor := (c.rcvCursor + 1) &&& c.capacityMask }) := by
        simp [try_receive, h1, h12]
      rw [hst, if_pos rfl]
      have hlen : (recvd ++ (c.buffer.getD c.rcvCursor none).toList).length =
          recvd.length + 1 := by
        rw [hdeliv, hsome]
        simp
      exact { pow := h.pow, mask_eq := h.mask_eq,
              buf_len := by simpa using h.buf_len,
              send_eq := h.send_eq,
              recv_eq := by rw [hrnext, hlen],
              recv_le := by rw [hlen]; omega,
              live_le := by
                rw [hlen]
                show sent.length ≤ recvd.length + 1 + (c.capacity - 1)
                omega,
              rc_ghost := ⟨RC, hRC, by rw [hlen]; omega, hRC2⟩,
              sc_ghost := ⟨sent.length, h.send_eq, by rw [hlen]; omega, le_refl _⟩,
              recvd_eq := by
                rw [hlen, List.take_succ, hdeliv]
                exact congrArg (· ++ sent[recvd.length]?.toList) h.recvd_eq,
              buf_live := by rw [hlen]; exact hbuf.1,
              buf_dead := by rw [hlen]; exact hbuf.2 }
  · have hRSC : recvd.length < SC := by
      have hne : recvd.length ≠ SC := by
        intro he
        exact h1 (by rw [h.recv_eq, hSC, he])
      omega
    have hRS : recvd.length < sent.length := by omega
    have hbuf := recv_buffer_facts h hRS
    have hdeliv : c.buffer.getD c.rcvCursor none = sent[recvd.length]? := by
      rw [h.recv_eq]
      exact h.buf_live recvd.length (le_refl _) hRS
    have hsome : sent[recvd.length]? = some (sent.get ⟨recvd.length, hRS⟩) := by
      simp [List.getElem?_eq_getElem hRS]
    have hst : try_receive c = (true, c.buffer.getD c.rcvCursor none,
        { c with
          buffer := c.buffer.set c.rcvCursor none
          rcvCursor := (c.rcvCursor + 1) &&& c.capacityMask }) := by
      simp [try_receive, h1]
    rw [hst, if_pos rfl]
    have hlen : (recvd ++ (c.buffer.getD c.rcvCursor none).toList).length =
        recvd.length + 1 := by
      rw [hdeliv, hsome]
      simp
    exact { pow := h.pow, mask_eq := h.mask_eq,
            buf_len := by simpa using h.buf_len,
            send_eq := h.send_eq,
            recv_eq := by rw [hrnext, hlen],
            recv_le := by rw [hlen]; omega,
            live_le := by
              rw [hlen]
              show sent.length ≤ recvd.length + 1 + (c.capacity - 1)
              omega,
            rc_ghost := ⟨RC, hRC, by rw [hlen]; omega, hRC2⟩,
            sc_ghost := ⟨SC, hSC, by rw [hlen]; omega, hSC2⟩,
            recvd_eq := by
              rw [hlen, List.take_succ, hdeliv]
              exact congrArg (· ++ sent[recvd.length]?.toList) h.recvd_eq,
            buf_live := by rw [hlen]; exact hbuf.1,
            buf_dead := by rw [hlen]; exact hbuf.2 }


end channels.spsc

namespace channels.spsc

lemma npow2_go_spec (n : Nat) :
    ∀ fuel j, n + 1 ≤ 2 ^ j + fuel →
      ∃ k, j ≤ k ∧ npow2_go n (2 ^ j) fuel = 2 ^ k ∧ n < 2 ^ k ∧
        ∀ m, j ≤ m → n < 2 ^ m → k ≤ m := by
  intro fuel
  induction fuel with
  | zero =>
    intro j hj
    refine ⟨j, le_refl _, rfl, by omega, fun m hm _ => hm⟩
  | succ fuel ih =>
    intro j hj
    by_cases hle : 2 ^ j ≤ n
    · have hps : (2 : Nat) ^ (j + 1) = 2 ^ j * 2 := by rw [Nat.pow_succ]
      have hp1 : 1 ≤ 2 ^ j := Nat.one_le_two_pow
      have hstep : npow2_go n (2 ^ j) (fuel + 1) = npow2_go n (2 ^ (j + 1)) fuel := by
        simp [npow2_go, hle, hps]
      obtain ⟨k, hk1, hk2, hk3, hk4⟩ := ih (j + 1) (by omega)
      refine ⟨k, by omega, hstep ▸ hk2, hk3, fun m hm hnm => ?_⟩
      have hjm : 2 ^ j < 2 ^ m := by omega
      have : j < m := (Nat.pow_lt_pow_iff_right (by omega : 1 < 2)).mp hjm
      exact hk4 m (by omega) hnm
    · refine ⟨j, le_refl _, by simp [npow2_go, hle], by omega, fun m hm _ => hm⟩

lemma next_power_of_2_spec (n : Nat) :
    (n ≤ 1 → next_power_of_2 n = 1) ∧
    (2 ≤ n → ∃ k, 1 ≤ k ∧ next_power_of_2 n = 2 ^ k ∧ n < 2 ^ k ∧
      ∀ m, n < 2 ^ m → k ≤ m) := by
  constructor
  · intro h
    simp [next_power_of_2, h]
  · intro h
    have h1 : ¬n ≤ 1 := by omega
    obtain ⟨k, _, hk2, hk3, hk4⟩ :=
      npow2_go_spec n (n + 1) 0 (by simp)
    refine ⟨k, ?_, ?_, hk3, fun m hm => hk4 m (Nat.zero_le m) hm⟩
    · rcases Nat.eq_zero_or_pos k with rfl | hp
      · simp at hk3; omega
      · exact hp
    · simp only [next_power_of_2, h1, if_false]
      simpa using hk2

lemma npow2_pow (n : Nat) : ∃ k, next_power_of_2 n = 2 ^ k := by
  by_cases h : n ≤ 1
  · exact ⟨0, by simpa using (next_power_of_2_spec n).1 h⟩
  · obtain ⟨k, _, hk, _, _⟩ := (next_power_of_2_spec n).2 (by omega)
    exact ⟨k, hk⟩

lemma npow2_pos (n : Nat) : 0 < next_power_of_2 n := by
  obtain ⟨k, hk⟩ := npow2_pow n
  rw [hk]
  exact Nat.two_pow_pos k

lemma mk_inv (α : Type) (cap0 : Nat) : Inv (mkChannel α cap0) [] [] := by
  have hpos := npow2_pos cap0
  exact { pow := npow2_pow cap0,
          mask_eq := rfl,
          buf_len := List.length_replicate _ _,
          send_eq := (Nat.zero_mod _).symm,
          recv_eq := (Nat.zero_mod _).symm,
          recv_le := le_refl _,
          live_le := by simp,
          rc_ghost := ⟨0, (Nat.zero_mod _).symm, le_refl _, by simp⟩,
          sc_ghost := ⟨0, (Nat.zero_mod _).symm, le_refl _, le_refl _⟩,
          recvd_eq := rfl,
          buf_live := fun i _ hi => by simp at hi,
          buf_dead := fun j _ _ => getD_replicate _ _ }

lemma runFrom_inv {α : Type} (ops : List (Op α)) :
    ∀ c sent recvd, Inv c sent recvd →
      Inv (runFrom c sent recvd ops).1 (runFrom c sent recvd ops).2.1
        (runFrom c sent recvd ops).2.2 := by
  induction ops with
  | nil => intro c sent recvd h; exact h
  | cons op ops ih =>
    intro c sent recvd h
    cases op with
    | send v =>
      simp only [runFrom]
      exact ih _ _ _ (try_send_inv h v)
    | recv =>
      simp only [runFrom]
      exact ih _ _ _ (try_receive_inv h)

lemma run_inv (α : Type) (cap0 : Nat) (ops : List (Op α)) :
    Inv (run α cap0 ops).1 (run α cap0 ops).2.1 (run α cap0 ops).2.2 :=
  runFrom_inv ops _ _ _ (mk_inv α cap0)

lemma try_send_capacity {α : Type} (c : Chan α) (v : α) :
    (try_send c v).2.capacity = c.capacity ∧
    (try_send c v).2.capacityMask = c.capacityMask := by
  refine ⟨?_, ?_⟩ <;>
    (simp only [try_send]
     split
     · split <;> rfl
     · rfl)

lemma try_receive_capacity {α : Type} (c : Chan α) :
    (try_receive c).2.2.capacity = c.capacity ∧
    (try_receive c).2.2.capacityMask = c.capacityMask := by
  refine ⟨?_, ?_⟩ <;>
    (simp only [try_receive]
     split
     · split <;> rfl
     · rfl)

lemma runFrom_capacity {α : Type} (ops : List (Op α)) :
    ∀ c sent recvd, (runFrom c sent recvd ops).1.capacity = c.capacity := by
  induction ops with
  | nil => intro c _ _; rfl
  | cons op ops ih =>
    intro c sent recvd
    cases op with
    | send v =>
      simp only [runFrom]
      rw [ih]
      exact (try_send_capacity c v).1
    | recv =>
      simp only [runFrom]
      rw [ih]
      exact (try_receive_capacity c).1

lemma full_iff_cursor {α : Type} {c : Chan α} {sent recvd : List α}
    (h : Inv c sent recvd) :
    sent.length = recvd.length + (c.capacity - 1) ↔
      (c.sendCursor + 1) &&& c.capacityMask = c.rcvCursor := by
  have hcap := h.cap_pos
  have hrle := h.recv_le
  have hlive := h.live_le
  rw [h.next_eq, h.recv_eq]
  constructor
  · intro hf
    have heq : sent.length + 1 = recvd.length + c.capacity := by omega
    rw [heq]
    exact Nat.add_mod_right _ _
  · intro he
    have hcases := (mod_eq_mod_iff hcap
      (by omega : recvd.length ≤ sent.length + 1) (by omega)).mp he
    omega

lemma empty_iff_cursor {α : Type} {c : Chan α} {sent recvd : List α}
    (h : Inv c sent recvd) :
    sent.length = recvd.length ↔ c.rcvCursor = c.sendCursor := by
  have hcap := h.cap_pos
  have hrle := h.recv_le
  have hlive := h.live_le
  rw [h.recv_eq, h.send_eq]
  constructor
  · intro he
    rw [he]
  · intro he
    have hcases := (mod_eq_mod_iff hcap hrle (by omega)).mp he.symm
    omega

lemma dtor_go_spec (k : Nat) :
    ∀ L r fuel, L < 2 ^ k → r < 2 ^ k → L < fuel →
      dtor_go (2 ^ k - 1) ((r + L) % 2 ^ k) r fuel =
        (List.range L).map (fun t => (r + t) % 2 ^ k) := by
  intro L
  induction L with
  | zero =>
    intro r fuel _ hr hfuel
    rcases fuel with _ | fuel
    · omega
    · simp [dtor_go, Nat.mod_eq_of_lt hr]
  | succ L ih =>
    intro r fuel hL hr hfuel
    rcases fuel with _ | fuel
    · omega
    · have hcap : 0 < 2 ^ k := Nat.two_pow_pos k
      have hne : ¬r = (r + (L + 1)) % 2 ^ k := by
        intro he
        have h2 : (r + (L + 1)) % 2 ^ k = r % 2 ^ k := by
          rw [← he, Nat.mod_eq_of_lt hr]
        have := (mod_eq_mod_iff hcap (by omega) (by omega)).mp h2
        omega
      simp only [dtor_go, if_neg hne]
      have hmask : (r + 1) &&& (2 ^ k - 1) = (r + 1) % 2 ^ k :=
        Nat.and_pow_two_sub_one_eq_mod _ _
      rw [hmask]
      have hr2 : (r + 1) % 2 ^ k < 2 ^ k := Nat.mod_lt _ hcap
      have harg : (r + (L + 1)) % 2 ^ k = ((r + 1) % 2 ^ k + L) % 2 ^ k := by
        rw [Nat.mod_add_mod]
        congr 1
        omega
      rw [harg, ih ((r + 1) % 2 ^ k) fuel (by omega) hr2 (by omega)]
      rw [List.range_succ_eq_map]
      simp only [List.map_cons, List.map_map]
      refine congrArg₂ List.cons ?_ ?_
      · rw [Nat.add_zero, Nat.mod_eq_of_lt hr]
      · apply List.map_congr_left
        intro t _
        simp only [Function.comp_apply]
        rw [Nat.mod_add_mod]
        congr 1
        omega

lemma destructed_run {α : Type} {c : Chan α} {sent recvd : List α}
    (h : Inv c sent recvd) :
    destructed c = (List.range (sent.length - recvd.length)).map
      (fun t => (recvd.length + t) % c.capacity) := by
  obtain ⟨k, hk⟩ := h.pow
  have hcap := h.cap_pos
  have hrle := h.recv_le
  have hlive := h.live_le
  have hL : sent.length - recvd.length < c.capacity := by omega
  have hr : recvd.length % c.capacity < c.capacity := Nat.mod_lt _ hcap
  have hsend : c.sendCursor =
      (recvd.length % c.capacity + (sent.length - recvd.length)) % c.capacity := by
    rw [h.send_eq, Nat.mod_add_mod]
    congr 1
    omega
  have hspec := dtor_go_spec k (sent.length - recvd.length)
    (recvd.length % c.capacity) c.capacity (hk ▸ hL) (hk ▸ hr) (hk ▸ hL)
  rw [destructed, h.mask_eq, hsend, h.recv_eq, hk]
  rw [hk] at hspec
  rw [hspec]
  apply List.map_congr_left
  intro t _
  rw [Nat.mod_add_mod]

lemma try_send_effects {α : Type} (c : Chan α) (v : α) :
    ((try_send c v).1 = false →
      (try_send c v).2.sendCursor = c.sendCursor ∧
      (try_send c v).2.rcvCursor = c.rcvCursor ∧
      (try_send c v).2.buffer = c.buffer) ∧
    ((try_send c v).1 = true →
      (try_send c v).2.buffer = c.buffer.set c.sendCursor (some v) ∧
      (try_send c v).2.sendCursor = (c.sendCursor + 1) &&& c.capacityMask ∧
      (try_send c v).2.rcvCursor = c.rcvCursor) := by
  refine ⟨?_, ?_⟩ <;>
    (simp only [try_send]
     split
     · split <;> simp
     · simp)

lemma try_receive_effects {α : Type} (c : Chan α) :
    ((try_receive c).1 = false →
      (try_receive c).2.1 = none ∧
      (try_receive c).2.2.rcvCursor = c.rcvCursor ∧
      (try_receive c).2.2.sendCursor = c.sendCursor ∧
      (try_receive c).2.2.buffer = c.buffer) ∧
    ((try_receive c).1 = true →
      (try_receive c).2.1 = c.buffer.getD c.rcvCursor none ∧
      (try_receive c).2.2.buffer = c.buffer.set c.rcvCursor none ∧
      (try_receive c).2.2.rcvCursor = (c.rcvCursor + 1) &&& c.capacityMask ∧
      (try_receive c).2.2.sendCursor = c.sendCursor) := by
  refine ⟨?_, ?_⟩ <;>
    (simp only [try_receive]
     split
     · split <;> simp
     · simp)

lemma runFrom_cap1 {α : Type} (ops : List (Op α)) :
    ∀ c sent recvd, Inv c sent recvd → c.capacity = 1 →
      (runFrom c sent recvd ops).2.1 = sent ∧
      (runFrom c sent recvd ops).2.2 = recvd := by
  induction ops with
  | nil => intro c sent recvd _ _; exact ⟨rfl, rfl⟩
  | cons op ops ih =>
    intro c sent recvd h hcap
    have hrle := h.recv_le
    have hlive := h.live_le
    have hSR : sent.length = recvd.length := by rw [hcap] at hlive; omega
    cases op with
    | send v =>
      have hf : (try_send c v).1 = false :=
        (try_send_fail_iff h v).mpr (by rw [hcap]; omega)
      have hinv := try_send_inv h v
      rw [hf] at hinv
      simp only [Bool.false_eq_true, if_false] at hinv
      have hcap2 : (try_send c v).2.capacity = 1 := by
        rw [(try_send_capacity c v).1, hcap]
      simp only [runFrom, hf, Bool.false_eq_true, if_false]
      exact ih _ _ _ hinv hcap2
    | recv =>
      have hf : (try_receive c).1 = false :=
        (try_receive_fail_iff h).mpr hSR
      have hinv := try_receive_inv h
      rw [hf] at hinv
      simp only [Bool.false_eq_true, if_false] at hinv
      have hcap2 : (try_receive c).2.2.capacity = 1 := by
        rw [(try_receive_capacity c).1, hcap]
      simp only [runFrom, hf, Bool.false_eq_true, if_false]
      exact ih _ _ _ hinv hcap2

lemma sendStreak_eq {α : Type} (v : α) :
    ∀ fuel (c : Chan α) sent recvd, Inv c sent recvd →
      recvd.length + (c.capacity - 1) - sent.length ≤ fuel →
      sendStreak c v fuel =
        recvd.length + (c.capacity - 1) - sent.length := by
  intro fuel
  induction fuel with
  | zero =>
    intro c sent recvd _ hf
    simp only [sendStreak]
    omega
  | succ fuel ih =>
    intro c sent recvd h hf
    have hrle := h.recv_le
    have hlive := h.live_le
    by_cases hfull : sent.length = recvd.length + (c.capacity - 1)
    · have hfalse : (try_send c v).1 = false := (try_send_fail_iff h v).mpr hfull
      simp only [sendStreak, hfalse, Bool.false_eq_true, if_false]
      omega
    · have htrue : (try_send c v).1 = true := by
        cases hb : (try_send c v).1 with
        | false => exact absurd ((try_send_fail_iff h v).mp hb) hfull
        | true => rfl
      have hinv : Inv (try_send c v).2 (sent ++ [v]) recvd := by
        simpa [htrue] using try_send_inv h v
      have hcap2 := (try_send_capacity c v).1
      have hlen : (sent ++ [v]).length = sent.length + 1 := by simp
      have hrec := ih (try_send c v).2 (sent ++ [v]) recvd hinv
        (by rw [hcap2, hlen]; omega)
      have hstep : sendStreak c v (fuel + 1) =
          sendStreak (try_send c v).2 v fuel + 1 := by
        simp [sendStreak, htrue]
      rw [hstep, hrec, hcap2, hlen]
      omega

lemma maxInFlight_eq (cap0 : Nat) :
    maxInFlight cap0 = next_power_of_2 cap0 - 1 := by
  have h0 := mk_inv Nat cap0
  have hs := sendStreak_eq 0 (next_power_of_2 cap0) (mkChannel Nat cap0) [] []
    h0 (by simp [mkChannel])
  simpa [maxInFlight, mkChannel] using hs

lemma claimed_go_spec (n : Nat) :
    ∀ fuel j, n ≤ 2 ^ j + fuel →
      ∃ k, j ≤ k ∧ claimed_go n (2 ^ j) fuel = 2 ^ k ∧ n ≤ 2 ^ k ∧
        ∀ m, j ≤ m → n ≤ 2 ^ m → k ≤ m := by
  intro fuel
  induction fuel with
  | zero =>
    intro j hj
    refine ⟨j, le_refl _, rfl, by omega, fun m hm _ => hm⟩
  | succ fuel ih =>
    intro j hj
    by_cases hlt : 2 ^ j < n
    · have hps : (2 : Nat) ^ (j + 1) = 2 ^ j * 2 := by rw [Nat.pow_succ]
      have hp1 : 1 ≤ 2 ^ j := Nat.one_le_two_pow
      have hstep : claimed_go n (2 ^ j) (fuel + 1) =
          claimed_go n (2 ^ (j + 1)) fuel := by
        simp [claimed_go, hlt, hps]
      obtain ⟨k, hk1, hk2, hk3, hk4⟩ := ih (j + 1) (by omega)
      refine ⟨k, by omega, hstep ▸ hk2, hk3, fun m hm hnm => ?_⟩
      have hjm : 2 ^ j < 2 ^ m := by omega
      have : j < m := (Nat.pow_lt_pow_iff_right (by omega : 1 < 2)).mp hjm
      exact hk4 m (by omega) hnm
    · refine ⟨j, le_refl _, by simp [claimed_go, hlt], by omega, fun m hm _ => hm⟩

lemma claimed_next_pow2_spec (n : Nat) :
    ∃ k, claimed_next_pow2 n = 2 ^ k ∧ n ≤ 2 ^ k ∧
      ∀ m, n ≤ 2 ^ m → k ≤ m := by
  obtain ⟨k, _, hk2, hk3, hk4⟩ := claimed_go_spec n n 0 (by simp)
  exact ⟨k, by simpa [claimed_next_pow2] using hk2, hk3,
    fun m hm => hk4 m (Nat.zero_le m) hm⟩



/-- C1: for every sequential interleaving of one producer's `try_send` and
one consumer's `try_receive` on the SPSC channel, the delivered sequence is
the prefix of the successfully sent sequence (hence never more successful
receives than sends), and whenever `try_receive` reports empty the two
counts coincide — in particular after the producer stops and the consumer
drains to empty. -/
theorem spsc_fifo_no_loss (α : Type) (cap0 : Nat) (ops : List (Op α)) :
    (run α cap0 ops).2.2 =
      (run α cap0 ops).2.1.take (run α cap0 ops).2.2.length ∧
    (run α cap0 ops).2.2.length ≤ (run α cap0 ops).2.1.length ∧
    ((try_receive (run α cap0 ops).1).1 = false →
      (run α cap0 ops).2.2.length = (run α cap0 ops).2.1.length) := by
  have h := run_inv α cap0 ops
  exact ⟨h.recvd_eq, h.recv_le, fun hf => ((try_receive_fail_iff h).mp hf).symm⟩

/-- Witness for C1: a concrete drained interleaving in which the final
`try_receive` reports empty and the receive count equals the send count. -/
theorem spsc_fifo_no_loss_witness :
    (run Nat 4 [Op.send 7, Op.send 9, Op.recv, Op.recv]).2.2.length =
      (run Nat 4 [Op.send 7, Op.send 9, Op.recv, Op.recv]).2.1.length :=
  (spsc_fifo_no_loss Nat 4 [Op.send 7, Op.send 9, Op.recv, Op.recv]).2.2
    (by decide)

/-- C2: on every reachable SPSC channel state, `try_send` fails exactly
when `(send_cursor + 1) & mask == recv_cursor`; on failure the two cursors
and the whole buffer are unchanged, and on success the value is constructed
in place at `buffer[send_cursor]` and the send cursor advances to
`(send_cursor + 1) & mask`. -/
theorem spsc_try_send_full_frame (α : Type) (cap0 : Nat) (ops : List (Op α))
    (v : α) (c : Chan α) (hc : c = (run α cap0 ops).1) :
    ((try_send c v).1 = false ↔
      (c.sendCursor + 1) &&& c.capacityMask = c.rcvCursor) ∧
    ((try_send c v).1 = false →
      (try_send c v).2.sendCursor = c.sendCursor ∧
      (try_send c v).2.rcvCursor = c.rcvCursor ∧
      (try_send c v).2.buffer = c.buffer) ∧
    ((try_send c v).1 = true →
      (try_send c v).2.buffer = c.buffer.set c.sendCursor (some v) ∧
      (try_send c v).2.sendCursor = (c.sendCursor + 1) &&& c.capacityMask ∧
      (try_send c v).2.rcvCursor = c.rcvCursor) := by
  subst hc
  have h := run_inv α cap0 ops
  refine ⟨?_, (try_send_effects _ v).1, (try_send_effects _ v).2⟩
  rw [try_send_fail_iff h v]
  exact full_iff_cursor h

/-- Witness for C2 at a concrete reachable state (a fresh channel of
requested capacity 4, which is not full, so the send succeeds). -/
theorem spsc_try_send_full_frame_witness :
    ((try_send (run Nat 4 []).1 5).1 = false ↔
      ((run Nat 4 []).1.sendCursor + 1) &&& (run Nat 4 []).1.capacityMask =
        (run Nat 4 []).1.rcvCursor) ∧
    (try_send (run Nat 4 []).1 5).2.buffer =
      (run Nat 4 []).1.buffer.set (run Nat 4 []).1.sendCursor (some 5) :=
  ⟨(spsc_try_send_full_frame Nat 4 [] 5 _ rfl).1,
   ((spsc_try_send_full_frame Nat 4 [] 5 _ rfl).2.2 (by decide)).1⟩

/-- C3: on every reachable SPSC channel state, `try_receive` fails exactly
when `recv_cursor == send_cursor`; on failure the out-parameter and the
cursors and buffer are untouched; on success it extracts the value stored
at `buffer[recv_cursor]` (a real value: the slot is occupied), destructs
that slot, and advances the receive cursor to `(recv_cursor + 1) & mask`. -/
theorem spsc_try_receive_empty_frame (α : Type) (cap0 : Nat)
    (ops : List (Op α)) (c : Chan α) (hc : c = (run α cap0 ops).1) :
    ((try_receive c).1 = false ↔ c.rcvCursor = c.sendCursor) ∧
    ((try_receive c).1 = false →
      (try_receive c).2.1 = none ∧
      (try_receive c).2.2.rcvCursor = c.rcvCursor ∧
      (try_receive c).2.2.sendCursor = c.sendCursor ∧
      (try_receive c).2.2.buffer = c.buffer) ∧
    ((try_receive c).1 = true →
      (try_receive c).2.1 = c.buffer.getD c.rcvCursor none ∧
      (try_receive c).2.1 ≠ none ∧
      (try_receive c).2.2.buffer = c.buffer.set c.rcvCursor none ∧
      (try_receive c).2.2.rcvCursor = (c.rcvCursor + 1) &&& c.capacityMask ∧
      (try_receive c).2.2.sendCursor = c.sendCursor) := by
  subst hc
  have h := run_inv α cap0 ops
  refine ⟨?_, (try_receive_effects _).1, fun hs => ?_⟩
  · rw [try_receive_fail_iff h]
    exact empty_iff_cursor h
  · have he := (try_receive_effects _).2 hs
    have hv := try_receive_succ_val h hs
    have hlt := try_receive_lt h hs
    refine ⟨he.1, ?_, he.2.1, he.2.2.1, he.2.2.2⟩
    rw [hv]
    simp [List.getElem?_eq_getElem hlt]

/-- Witness for C3: on a reachable state holding one element the receive
succeeds and extracts an actual value. -/
theorem spsc_try_receive_empty_frame_witness :
    ((try_receive (run Nat 4 []).1).1 = false ↔
      (run Nat 4 []).1.rcvCursor = (run Nat 4 []).1.sendCursor) ∧
    (try_receive (run Nat 4 [Op.send 5]).1).2.1 ≠ none :=
  ⟨(spsc_try_receive_empty_frame Nat 4 [] _ rfl).1,
   ((spsc_try_receive_empty_frame Nat 4 [Op.send 5] _ rfl).2.2 (by decide)).2.1⟩

/-- C4 counterexample: at requested capacity 4 the number of consecutive
successful `try_send` calls on a fresh channel is 7, not
`claimed_next_pow2 4 - 1 = 3` where `claimed_next_pow2` is the smallest
power of two ≥ the request, as the claim words `nextPow2`. -/
theorem spsc_capacity_cex :
    ¬maxInFlight 4 = claimed_next_pow2 4 - 1 := by decide

/-- C4 amended: the maximum number of in-flight elements after constructing
with requested capacity C is `next_power_of_2 C - 1`, where
`next_power_of_2 C` is 1 for C ≤ 1 and otherwise the smallest power of two
strictly greater than C. -/
theorem spsc_capacity_amended (C : Nat) :
    maxInFlight C = next_power_of_2 C - 1 ∧
    (C ≤ 1 → next_power_of_2 C = 1) ∧
    (2 ≤ C → C < next_power_of_2 C ∧ (∃ k, next_power_of_2 C = 2 ^ k) ∧
      ∀ m, C < 2 ^ m → next_power_of_2 C ≤ 2 ^ m) := by
  refine ⟨maxInFlight_eq C, (next_power_of_2_spec C).1, fun hC => ?_⟩
  obtain ⟨k, hk1, hk2, hk3, hk4⟩ := (next_power_of_2_spec C).2 hC
  refine ⟨?_, ⟨k, hk2⟩, fun m hm => ?_⟩
  · rw [hk2]
    exact hk3
  · rw [hk2]
    exact Nat.pow_le_pow_right (by omega) (hk4 m hm)

/-- Witness for C4 (amended) at C = 4: seven sends fit, and 8 is a power
of two strictly above 4. -/
theorem spsc_capacity_amended_witness :
    maxInFlight 4 = next_power_of_2 4 - 1 ∧ 4 < next_power_of_2 4 :=
  ⟨(spsc_capacity_amended 4).1, ((spsc_capacity_amended 4).2.2 (by decide)).1⟩

/-- C8: after any interleaving, the destructor of the SPSC channel
destructs exactly the slots at positions `[recv_cursor, send_cursor)`
modulo capacity — in order, each exactly once (no duplicates), and these
are exactly the occupied slots — so constructions (successful sends) equal
destructions (successful receives plus slots destructed at teardown). -/
theorem spsc_dtor_accounting (α : Type) (cap0 : Nat) (ops : List (Op α)) :
    destructed (run α cap0 ops).1 =
      (List.range ((run α cap0 ops).2.1.length - (run α cap0 ops).2.2.length)).map
        (fun t => ((run α cap0 ops).2.2.length + t) % (run α cap0 ops).1.capacity) ∧
    (destructed (run α cap0 ops).1).Nodup ∧
    (∀ j, j ∈ destructed (run α cap0 ops).1 ↔
      j < (run α cap0 ops).1.capacity ∧
        (run α cap0 ops).1.buffer.getD j none ≠ none) ∧
    (run α cap0 ops).2.1.length =
      (run α cap0 ops).2.2.length + (destructed (run α cap0 ops).1).length := by
  have h := run_inv α cap0 ops
  have hcap := h.cap_pos
  have hrle := h.recv_le
  have hlive := h.live_le
  have hd := destructed_run h
  have hinj : ∀ t1, t1 < (run α cap0 ops).2.1.length - (run α cap0 ops).2.2.length →
      ∀ t2, t2 < (run α cap0 ops).2.1.length - (run α cap0 ops).2.2.length →
      ((run α cap0 ops).2.2.length + t1) % (run α cap0 ops).1.capacity =
        ((run α cap0 ops).2.2.length + t2) % (run α cap0 ops).1.capacity →
      t1 = t2 := by
    intro t1 ht1 t2 ht2 heq
    rcases Nat.le_total t1 t2 with hle | hle
    · have := (mod_eq_mod_iff hcap (by omega) (by omega)).mp heq.symm
      omega
    · have := (mod_eq_mod_iff hcap (by omega) (by omega)).mp heq
      omega
  refine ⟨hd, ?_, ?_, ?_⟩
  · rw [hd]
    refine List.Nodup.map_on ?_ (List.nodup_range _)
    intro t1 ht1 t2 ht2 heq
    exact hinj t1 (List.mem_range.mp ht1) t2 (List.mem_range.mp ht2) heq
  · intro j
    rw [hd]
    constructor
    · intro hj
      obtain ⟨t, ht, rfl⟩ := List.mem_map.mp hj
      have ht := List.mem_range.mp ht
      refine ⟨Nat.mod_lt _ hcap, ?_⟩
      rw [h.buf_live ((run α cap0 ops).2.2.length + t) (by omega) (by omega)]
      have hlt : (run α cap0 ops).2.2.length + t < (run α cap0 ops).2.1.length := by
        omega
      simp [List.getElem?_eq_getElem hlt]
    · rintro ⟨hj, hocc⟩
      by_contra hno
      apply hocc
      apply h.buf_dead j hj
      intro i hiR hiS heq
      apply hno
      apply List.mem_map.mpr
      refine ⟨i - (run α cap0 ops).2.2.length, List.mem_range.mpr (by omega), ?_⟩
      have : (run α cap0 ops).2.2.length + (i - (run α cap0 ops).2.2.length) = i := by
        omega
      rw [this, heq]
  · rw [hd]
    simp only [List.length_map, List.length_range]
    omega

/-- C10: with requested capacity 0 or 1 the constructor produces internal
capacity 1 and mask 0, every `try_send` in every interleaving fails (the
successful-send list stays empty), and `try_send` on the resulting state
still fails: the channel is permanently full. -/
theorem spsc_degenerate_capacity (α : Type) (cap0 : Nat) (hcap : cap0 ≤ 1)
    (ops : List (Op α)) :
    (mkChannel α cap0).capacity = 1 ∧
    (mkChannel α cap0).capacityMask = 0 ∧
    (run α cap0 ops).2.1 = [] ∧
    ∀ v, (try_send (run α cap0 ops).1 v).1 = false := by
  have h1 : next_power_of_2 cap0 = 1 := (next_power_of_2_spec cap0).1 hcap
  have hc1 : (mkChannel α cap0).capacity = 1 := h1
  refine ⟨h1, ?_, ?_, ?_⟩
  · show next_power_of_2 cap0 - 1 = 0
    omega
  · exact (runFrom_cap1 ops _ _ _ (mk_inv α cap0) hc1).1
  · intro v
    have h := run_inv α cap0 ops
    have hcapr : (run α cap0 ops).1.capacity = 1 :=
      (runFrom_capacity ops (mkChannel α cap0) [] []).trans hc1
    have hrle := h.recv_le
    have hlive := h.live_le
    rw [hcapr] at hlive
    apply (try_send_fail_iff h v).mpr
    rw [hcapr]
    omega

/-- Witness for C10 at requested capacity 1: both attempted sends fail and
a further `try_send` fails as well. -/
theorem spsc_degenerate_capacity_witness :
    (run Nat 1 [Op.send 3, Op.send 4]).2.1 = [] ∧
    (try_send (run Nat 1 [Op.send 3, Op.send 4]).1 5).1 = false := by
  have h := spsc_degenerate_capacity Nat 1 (by decide) [Op.send 3, Op.send 4]
  exact ⟨h.2.2.1, h.2.2.2 5⟩

end channels.spsc

namespace channels.oneshot

/-- State masks of the tri-state `InnerChannel` (oneshot.hpp lines
216-218). -/
def NOT_SENT_MASK : Nat := 0

/-- State mask: value sent, not yet received. -/
def SENT_MASK : Nat := 1

/-- State mask: value received. -/
def RECEIVED_MASK : Nat := 2

/-- Tri-state one-shot inner channel (oneshot.hpp lines 159-222).
`value` models the raw aligned storage `value_`: `some v` exactly when a T
is constructed in the slot. `state` is the atomic state word. -/
structure InnerChannel (α : Type) where
  value : Option α
  state : Nat
deriving DecidableEq

/-- Constructor (oneshot.hpp line 163): state starts at 0, no T
constructed. -/
def mkInnerChannel (α : Type) : InnerChannel α :=
  { value := none, state := 0 }

/-- Model of the tri-state `InnerChannel::send` (oneshot.hpp lines
176-188): if the state is not NotSent return SENDER_CLOSED and change
nothing; otherwise place-construct the value and store state := Sent. -/
def send {α : Type} (ch : InnerChannel α) (v : α) :
    ResponseStatus × InnerChannel α :=
  if ch.state ≠ NOT_SENT_MASK then (ResponseStatus.SENDER_CLOSED, ch)
  else (ResponseStatus.SUCCESS, { ch with value := some v, state := SENT_MASK })

/-- Model of the tri-state `InnerChannel::try_receive` (oneshot.hpp lines
194-208).  Returns (status, value moved into the out parameter — `none`
when the out parameter is untouched, new state).  On the Sent path the
stored T is moved out and destructed (slot reset to `none`) and the state
becomes Received. -/
def try_receive {α : Type} (ch : InnerChannel α) :
    ResponseStatus × Option α × InnerChannel α :=
  let state := ch.state
  if state = RECEIVED_MASK then (ResponseStatus.RECEIVER_CLOSED, none, ch)
  else if state = NOT_SENT_MASK then (ResponseStatus.CHANNEL_EMPTY, none, ch)
  else (ResponseStatus.SUCCESS, ch.value,
    { ch with value := none, state := RECEIVED_MASK })

/-- Model of `InnerChannel::~InnerChannel` (oneshot.hpp lines 166-170):
the destructor of T runs at teardown iff the state equals Sent. -/
def dtorRuns {α : Type} (ch : InnerChannel α) : Bool :=
  ch.state == SENT_MASK

/-- One operation of a sequential interleaving on a one-shot channel. -/
inductive OpO (α : Type) where
  | send (v : α)
  | recv
deriving DecidableEq

/-- Instrumented trace of a one-shot run: the channel state plus counters
for successful sends, T constructions, and T destructions performed inside
`try_receive`. -/
structure Trace (α : Type) where
  ch : InnerChannel α
  sendOk : Nat
  ctor : Nat
  dtorRecv : Nat
deriving DecidableEq

/-- Run a list of operations, counting constructions and destructions. -/
def runO_from {α : Type} (t : Trace α) : List (OpO α) → Trace α
  | [] => t
  | OpO.send v :: ops =>
    let r := send t.ch v
    runO_from
      { ch := r.2
        sendOk := if r.1 = ResponseStatus.SUCCESS then t.sendOk + 1 else t.sendOk
        ctor := if r.1 = ResponseStatus.SUCCESS then t.ctor + 1 else t.ctor
        dtorRecv := t.dtorRecv } ops
  | OpO.recv :: ops =>
    let r := try_receive t.ch
    runO_from
      { ch := r.2.2
        sendOk := t.sendOk
        ctor := t.ctor
        dtorRecv := if r.1 = ResponseStatus.SUCCESS then t.dtorRecv + 1
                    else t.dtorRecv } ops

/-- Run a list of operations on a fresh one-shot channel. -/
def runO (α : Type) (ops : List (OpO α)) : Trace α :=
  runO_from { ch := mkInnerChannel α, sendOk := 0, ctor := 0, dtorRecv := 0 } ops

/-- Reachable-trace invariant of the one-shot state machine: the three
states NotSent, Sent, Received determine the slot occupancy and all
counters. -/
def OInv {α : Type} (t : Trace α) : Prop :=
  (t.ch.state = 0 ∧ t.ch.value = none ∧ t.sendOk = 0 ∧ t.ctor = 0 ∧
    t.dtorRecv = 0) ∨
  (t.ch.state = 1 ∧ (∃ w, t.ch.value = some w) ∧ t.sendOk = 1 ∧ t.ctor = 1 ∧
    t.dtorRecv = 0) ∨
  (t.ch.state = 2 ∧ t.ch.value = none ∧ t.sendOk = 1 ∧ t.ctor = 1 ∧
    t.dtorRecv = 1)

lemma runO_from_inv {α : Type} (ops : List (OpO α)) :
    ∀ t, OInv t → OInv (runO_from t ops) := by
  induction ops with
  | nil => intro t h; exact h
  | cons op ops ih =>
    intro t h
    cases op with
    | send v =>
      simp only [runO_from]
      apply ih
      rcases h with ⟨h1, h2, h3, h4, h5⟩ | ⟨h1, ⟨w, h2⟩, h3, h4, h5⟩ |
        ⟨h1, h2, h3, h4, h5⟩
      · right; left
        refine ⟨?_, ?_, ?_, ?_, ?_⟩ <;>
          simp [send, NOT_SENT_MASK, SENT_MASK, h1, h2, h3, h4, h5]
      · right; left
        refine ⟨?_, ?_, ?_, ?_, ?_⟩ <;>
          simp [send, NOT_SENT_MASK, SENT_MASK, h1, h2, h3, h4, h5]
      · right; right
        refine ⟨?_, ?_, ?_, ?_, ?_⟩ <;>
          simp [send, NOT_SENT_MASK, SENT_MASK, h1, h2, h3, h4, h5]
    | recv =>
      simp only [runO_from]
      apply ih
      rcases h with ⟨h1, h2, h3, h4, h5⟩ | ⟨h1, ⟨w, h2⟩, h3, h4, h5⟩ |
        ⟨h1, h2, h3, h4, h5⟩
      · left
        refine ⟨?_, ?_, ?_, ?_, ?_⟩ <;>
          simp [try_receive, NOT_SENT_MASK, RECEIVED_MASK, h1, h2, h3, h4, h5]
      · right; right
        refine ⟨?_, ?_, ?_, ?_, ?_⟩ <;>
          simp [try_receive, NOT_SENT_MASK, RECEIVED_MASK, h1, h2, h3, h4, h5]
      · right; right
        refine ⟨?_, ?_, ?_, ?_, ?_⟩ <;>
          simp [try_receive, NOT_SENT_MASK, RECEIVED_MASK, h1, h2, h3, h4, h5]

lemma runO_inv (α : Type) (ops : List (OpO α)) : OInv (runO α ops) :=
  runO_from_inv ops _ (Or.inl ⟨rfl, rfl, rfl, rfl, rfl⟩)

/-- C5: one-shot `send` returns SenderClosed and leaves the state word and
the slot unchanged exactly when the state is not NotSent; otherwise it
constructs the value in the slot, stores Sent, and returns Success.  Over
any operation sequence at most one send ever succeeds. -/
theorem oneshot_send_once (α : Type) :
    (∀ (ch : InnerChannel α) (v : α),
      ((send ch v).1 = ResponseStatus.SENDER_CLOSED ↔
        ch.state ≠ NOT_SENT_MASK) ∧
      ((send ch v).1 = ResponseStatus.SENDER_CLOSED → (send ch v).2 = ch) ∧
      (ch.state = NOT_SENT_MASK →
        (send ch v).1 = ResponseStatus.SUCCESS ∧
        (send ch v).2.value = some v ∧ (send ch v).2.state = SENT_MASK)) ∧
    ∀ ops : List (OpO α), (runO α ops).sendOk ≤ 1 := by
  constructor
  · intro ch v
    by_cases hs : ch.state = NOT_SENT_MASK
    · refine ⟨?_, ?_, fun _ => ?_⟩ <;> simp [send, hs]
    · refine ⟨?_, ?_, fun hc => absurd hc hs⟩ <;> simp [send, hs]
  · intro ops
    rcases runO_inv α ops with ⟨_, _, h, _, _⟩ | ⟨_, _, h, _, _⟩ |
      ⟨_, _, h, _, _⟩ <;> omega

/-- Witness for C5: on a fresh channel the send succeeds, and with two
sends attempted only one succeeds. -/
theorem oneshot_send_once_witness :
    (send (mkInnerChannel Nat) 57).1 = ResponseStatus.SUCCESS ∧
    (runO Nat [OpO.send 57, OpO.send 58]).sendOk ≤ 1 :=
  ⟨(((oneshot_send_once Nat).1 (mkInnerChannel Nat) 57).2.2 rfl).1,
   (oneshot_send_once Nat).2 [OpO.send 57, OpO.send 58]⟩

/-- C7: in every run of the tri-state one-shot channel, T is constructed
in the slot exactly when the state is Sent; the number of constructions
equals the number of successful sends (at most one); and the total number
of destructor runs — those inside successful `try_receive` plus the one the
final destructor performs when the state is still Sent — equals the number
of successful sends, so T is destructed exactly once iff a send succeeded
and never otherwise. -/
theorem oneshot_no_leak (α : Type) (ops : List (OpO α)) :
    ((runO α ops).ch.value.isSome ↔ (runO α ops).ch.state = SENT_MASK) ∧
    (runO α ops).ctor = (runO α ops).sendOk ∧
    (runO α ops).sendOk ≤ 1 ∧
    (runO α ops).dtorRecv + (if dtorRuns (runO α ops).ch then 1 else 0) =
      (runO α ops).sendOk := by
  rcases runO_inv α ops with ⟨h1, h2, h3, h4, h5⟩ | ⟨h1, ⟨w, h2⟩, h3, h4, h5⟩ |
    ⟨h1, h2, h3, h4, h5⟩ <;>
    simp [dtorRuns, SENT_MASK, h1, h2, h3, h4, h5]

/-- Boolean-flag one-shot inner channel (the older variant in oneshot.hpp,
lines 397-454).  `value` models the pointer `T* value_`:
`none` is the null pointer, `some none` a live allocation with no T
constructed, `some (some v)` a live allocation holding `v`. -/
structure InnerChannelB (α : Type) where
  value : Option (Option α)
  isSentCache : Bool
  isReceivedCache : Bool
  isReady : Bool
deriving DecidableEq

/-- Constructor of the boolean-flag variant (lines 401-403): it allocates
raw storage for one T (non-null pointer, nothing constructed). -/
def mkInnerChannelB (α : Type) : InnerChannelB α :=
  { value := some none, isSentCache := false, isReceivedCache := false,
    isReady := false }

/-- Model of the boolean-flag `InnerChannel::send` (lines 409-421). -/
def sendB {α : Type} (ch : InnerChannelB α) (v : α) :
    ResponseStatus × InnerChannelB α :=
  if ch.isSentCache then (ResponseStatus.SENDER_CLOSED, ch)
  else (ResponseStatus.SUCCESS,
    { ch with value := some (some v), isSentCache := true, isReady := true })

/-- Model of the boolean-flag `InnerChannel::try_receive` (lines 427-439).
The middle component records the pointer the success path dereferences for
`value = std::move(*value_)`: `none` means the out parameter is untouched,
`some p` means the path ran and moved out of pointer `p` — and `some none`
means it dereferenced the null pointer.  Afterwards `delete value_;
value_ = nullptr`.  Note the code never assigns `isReceivedCache_`. -/
def try_receiveB {α : Type} (ch : InnerChannelB α) :
    ResponseStatus × Option (Option (Option α)) × InnerChannelB α :=
  if ch.isReceivedCache then (ResponseStatus.RECEIVER_CLOSED, none, ch)
  else if !ch.isReady then (ResponseStatus.CHANNEL_EMPTY, none, ch)
  else (ResponseStatus.SUCCESS, some ch.value, { ch with value := none })

/-- C6 (code evaluation): in the boolean-flag variant, after a successful
send of 57 and a successful receive, a second `try_receive` does not
return ReceiverClosed: `isReceivedCache_` is never written, so the call
passes both checks, takes the success path again, returns Success, and
moves out of `value_` — which is by then the null pointer (middle
component `some none`), also writing the out parameter. -/
theorem oneshot_boolean_double_receive_bug :
    (try_receiveB (try_receiveB (sendB (mkInnerChannelB Nat) 57).2).2.2).1 =
      ResponseStatus.SUCCESS ∧
    ¬(try_receiveB (try_receiveB (sendB (mkInnerChannelB Nat) 57).2).2.2).1 =
      ResponseStatus.RECEIVER_CLOSED ∧
    (try_receiveB (sendB (mkInnerChannelB Nat) 57).2).1 =
      ResponseStatus.SUCCESS ∧
    (try_receiveB (sendB (mkInnerChannelB Nat) 57).2).2.2.value = none ∧
    (try_receiveB (try_receiveB (sendB (mkInnerChannelB Nat) 57).2).2.2).2.1 =
      some none := by decide

end channels.oneshot

namespace channels.arc

/-- Control block of `arc_ptr` (`arc_payload<T>`): a reference count and an
inline payload in a single allocation. -/
structure arc_payload (α : Type) where
  ref_count : Nat
  data : α
deriving DecidableEq

/-- Heap of control blocks.  A handle's `inner` pointer is modelled as an
index into this list (`Option Nat`, `none` = null); a freed block is a
`none` entry. -/
structure World (α : Type) where
  blocks : List (Option (arc_payload α))
deriving DecidableEq

/-- Model of `arc_ptr::use_count`: `inner ? inner->ref_count : 0`.
Reading through a dangling index is undefined behaviour in the source; the
model's 0 there is never relied upon (the theorems assume a live block). -/
def use_count {α : Type} (w : World α) (inner : Option Nat) : Nat :=
  match inner with
  | none => 0
  | some i =>
    match w.blocks.getD i none with
    | some p => p.ref_count
    | none => 0

/-- Model of the copy constructor `arc_ptr(const arc_ptr&)`: when engaged,
fetch-add one on the shared count. -/
def clone {α : Type} (w : World α) (inner : Option Nat) :
    World α × Option Nat :=
  match inner with
  | none => (w, none)
  | some i =>
    match w.blocks.getD i none with
    | some p =>
      ({ blocks := w.blocks.set i (some { p with ref_count := p.ref_count + 1 }) },
       some i)
    | none => (w, some i)

/-- Model of `arc_ptr::release` (part_006 lines 116-123): when engaged,
fetch-sub one; if the prior value was 1, delete the control block (running
the payload's destructor); in both cases null out `inner`.  The boolean
reports whether the block was deleted. -/
def release {α : Type} (w : World α) (inner : Option Nat) :
    World α × Option Nat × Bool :=
  match inner with
  | none => (w, none, false)
  | some i =>
    match w.blocks.getD i none with
    | none => (w, none, false)
    | some p =>
      if p.ref_count = 1 then ({ blocks := w.blocks.set i none }, none, true)
      else
        ({ blocks := w.blocks.set i (some { p with ref_count := p.ref_count - 1 }) },
         none, false)

/-- Model of `make_arc`: allocate a fresh block with count 1. -/
def make_arc {α : Type} (w : World α) (v : α) : World α × Option Nat :=
  ({ blocks := w.blocks ++ [some { ref_count := 1, data := v }] },
   some w.blocks.length)

lemma getD_some_lt {α : Type} {l : List (Option α)} {i : Nat} {p : α}
    (h : l.getD i none = some p) : i < l.length := by
  by_contra hge
  rw [List.getD_eq_default _ _ (by omega)] at h
  exact Option.noConfusion h

/-- C9: `use_count` on a null handle is 0; copying an engaged handle
increments the shared count by exactly one (and deletes nothing); and
`release` deletes the control block — running the payload's destructor —
exactly when its decrement observes a prior count of 1, otherwise merely
decrementing the count and keeping the block alive. -/
theorem arc_ptr_refcount (α : Type) (w : World α) (i : Nat)
    (p : arc_payload α) (hp : w.blocks.getD i none = some p) :
    use_count w none = 0 ∧
    use_count (clone w (some i)).1 (clone w (some i)).2 = p.ref_count + 1 ∧
    ((release w (some i)).2.2 = true ↔ p.ref_count = 1) ∧
    ((release w (some i)).2.2 = true →
      (release w (some i)).1.blocks.getD i none = none) ∧
    (¬p.ref_count = 1 →
      (release w (some i)).1.blocks.getD i none =
        some { p with ref_count := p.ref_count - 1 }) ∧
    (∀ j, (clone w (some i)).1.blocks.getD j none = none →
      w.blocks.getD j none = none) := by
  have hlt : i < w.blocks.length := getD_some_lt hp
  refine ⟨rfl, ?_, ?_, ?_, ?_, ?_⟩
  · simp only [clone, hp, use_count]
    rw [spsc.getD_set_self _ _ hlt]
  · simp only [release, hp]
    by_cases hrc : p.ref_count = 1 <;> simp [hrc]
  · simp only [release, hp]
    by_cases hrc : p.ref_count = 1
    · intro _
      simp only [hrc, if_pos rfl]
      exact spsc.getD_set_self _ _ hlt _
    · simp [hrc]
  · intro hrc
    simp only [release, hp, if_neg hrc]
    exact spsc.getD_set_self _ _ hlt _
  · intro j hj
    simp only [clone, hp] at hj
    by_cases hij : i = j
    · subst hij
      rw [spsc.getD_set_self _ _ hlt] at hj
      exact Option.noConfusion hj
    · rwa [spsc.getD_set_ne _ _ _ hij] at hj

/-- Witness for C9 on concrete worlds: a null handle counts 0, cloning a
block with count 2 yields 3, and releasing a block with count 1 deletes
it. -/
theorem arc_ptr_refcount_witness :
    use_count (World.mk [some (arc_payload.mk 2 (5 : Nat))]) none = 0 ∧
    use_count
      (clone (World.mk [some (arc_payload.mk 2 (5 : Nat))]) (some 0)).1
      (clone (World.mk [some (arc_payload.mk 2 (5 : Nat))]) (some 0)).2 = 3 ∧
    (release (World.mk [some (arc_payload.mk 1 (7 : Nat))]) (some 0)).2.2 =
      true :=
  ⟨(arc_ptr_refcount Nat (World.mk [some (arc_payload.mk 2 5)]) 0
      (arc_payload.mk 2 5) (by decide)).1,
   (arc_ptr_refcount Nat (World.mk [some (arc_payload.mk 2 5)]) 0
      (arc_payload.mk 2 5) (by decide)).2.1,
   (arc_ptr_refcount Nat (World.mk [some (arc_payload.mk 1 7)]) 0
      (arc_payload.mk 1 7) (by decide)).2.2.1.mpr rfl⟩

end channels.arc
